import Mathlib

/-!
# Verification of the JLPT PDF question extractor

Shallow embedding of the extraction logic of `JLPT-pdf-csv.py` and
`JLPT-pdf-csv-grammar.py` (namespaces `PdfCsv` and `PdfCsvGrammar`), together
with theorems settling the specification claims about them.

Text is modelled as `List Char` (`Str`), mirroring Python string operations
(`strip`, `split`, `replace(_, _, 1)`, substring containment) by executable
functions defined below.  Page geometry coordinates are rationals.
-/

set_option maxHeartbeats 1000000

namespace JLPT

/-- Text, modelled as a list of characters. -/
abbrev Str := List Char

/-- Characters stripped by Python `str.strip()` / matched by `\s`
(the Unicode whitespace characters that can occur in this corpus:
ASCII whitespace and the ideographic space U+3000, plus NBSP). -/
def pyIsSpace (c : Char) : Bool :=
  c = ' ' || c = '\t' || c = '\n' || c = '\r' ||
  c = '\x0b' || c = '\x0c' || c = ' ' || c = '　'

/-- Characters matched by Python's Unicode `\d` in this corpus:
ASCII digits and the full-width digits ０-９. -/
def pyIsDigit (c : Char) : Bool :=
  c.isDigit || ('０' ≤ c && c ≤ '９')

/-- Python `s.lstrip()`. -/
def pyStripLeft (s : Str) : Str := s.dropWhile pyIsSpace

/-- Python `s.rstrip()`. -/
def pyStripRight (s : Str) : Str := (s.reverse.dropWhile pyIsSpace).reverse

/-- Python `s.strip()`. -/
def pyStrip (s : Str) : Str := pyStripRight (pyStripLeft s)

/-- Python `pat in s` (substring containment; the empty pattern is contained
in every string). -/
def strContains (s pat : Str) : Bool :=
  if pat.isPrefixOf s then true
  else
    match s with
    | [] => false
    | _ :: t => strContains t pat

/-- Python `s.replace(pat, rep, 1)`: replace the first (leftmost) occurrence
of `pat` in `s` by `rep`; if `pat` does not occur, return `s` unchanged. -/
def replaceFirst (s pat rep : Str) : Str :=
  if pat.isPrefixOf s then rep ++ s.drop pat.length
  else
    match s with
    | [] => []
    | c :: t => c :: replaceFirst t pat rep

/-- Python `s.split(c)` (always at least one part; empty parts kept). -/
def splitOn (c : Char) : Str → List Str
  | [] => [[]]
  | a :: t =>
    match splitOn c t with
    | [] => [[]]
    | h :: r => if a = c then [] :: h :: r else (a :: h) :: r

/-- Split at the first occurrence of `c`: `some (before, after)` when `c`
occurs, `none` otherwise (Python `s.split(c, 1)` has two parts iff `c ∈ s`). -/
def splitFirst (c : Char) : Str → Option (Str × Str)
  | [] => none
  | a :: t =>
    if a = c then some ([], t)
    else (splitFirst c t).map fun p => (a :: p.1, p.2)

/-- Python `s.split(c)[0]`: the text before the first occurrence of `c`
(the whole string when `c` does not occur). -/
def firstField (c : Char) (s : Str) : Str := s.takeWhile (fun a => a ≠ c)

/-- Python `s.split(c, 1)[-1]`: the text after the first occurrence of `c`
when `c` occurs, and the *whole string* when it does not (the `[-1]` of a
one-element list is that element). -/
def splitRem (c : Char) (s : Str) : Str :=
  match splitFirst c s with
  | some p => p.2
  | none => s

/-- Python `"\n".join(parts)`. -/
def joinNL (parts : List Str) : Str := List.intercalate ['\n'] parts

/-- First element of a part list (`splitOn` never returns `[]`). -/
def headPart : List Str → Str
  | [] => []
  | h :: _ => h

/-- Last element of a part list. -/
def lastPart : List Str → Str
  | [] => []
  | [h] => h
  | _ :: t => lastPart t

/-- Numeric value of a digit string (full-width digits included), for
Python `int(...)` on a `\d+` match. -/
def digitsVal (s : Str) : Nat :=
  s.foldl (fun n c => 10 * n + (if c.isDigit then c.toNat - '0'.toNat else c.toNat - '０'.toNat)) 0

/-- Python `re.match(r'^(\d+)\.', s)`: `some` digit group when `s` starts
with one or more digits immediately followed by `'.'`.  (The greedy `\d+`
must take the maximal run: shortening it leaves a digit where `\.` is
required, so only the maximal run can match.) -/
def matchNumDot (s : Str) : Option Str :=
  let ds := s.takeWhile pyIsDigit
  if ds = [] then none
  else
    match s.drop ds.length with
    | '.' :: _ => some ds
    | _ => none

/-- Python `re.match(r'^\d+番', s)`. -/
def matchNumBan (s : Str) : Bool :=
  let ds := s.takeWhile pyIsDigit
  if ds = [] then false
  else
    match s.drop ds.length with
    | '番' :: _ => true
    | _ => false

/-- Python `re.match(r'問題(\d+)', s)` followed by `int(group(1))`. -/
def matchMondai (s : Str) : Option Nat :=
  match s with
  | '問' :: '題' :: rest =>
    let ds := rest.takeWhile pyIsDigit
    if ds = [] then none else some (digitsVal ds)
  | _ => none

/-- Python `re.sub(r'^\d+\.\s*', '', s)`: remove a leading digit run followed
by `'.'` and any following whitespace; return `s` unchanged when the anchored
pattern does not match. -/
def stripOrdinal (s : Str) : Str :=
  let ds := s.takeWhile pyIsDigit
  if ds = [] then s
  else
    match s.drop ds.length with
    | '.' :: rest => rest.dropWhile pyIsSpace
    | _ => s

/-- Last index of `c` in `s`, if any. -/
def lastIdxOf (c : Char) (s : Str) : Option Nat :=
  ((List.range s.length).filter fun i => s.get? i = some c).getLast?

/-- One anchored attempt of Python
`re.search(r'(\d+)\.(.*)「(.*)」', s)` at the start of `s`: maximal digit run,
then `'.'`, then (by greediness of the two `.*`) group 2 runs to the last
`「` that still has a `」` after it, and group 3 to the last `」`. -/
def matchVocabAt (s : Str) : Option (Str × Str × Str) :=
  let ds := s.takeWhile pyIsDigit
  if ds = [] then none
  else
    match s.drop ds.length with
    | '.' :: rest =>
      match lastIdxOf '」' rest with
      | none => none
      | some q =>
        match ((List.range q).filter fun i => rest.get? i = some '「').getLast? with
        | none => none
        | some p => some (ds, rest.take p, (rest.drop (p + 1)).take (q - (p + 1)))
    | _ => none

/-- Python `re.search(r'(\d+)\.(.*)「(.*)」', s)`: try each start position
left to right. -/
def searchVocab : Str → Option (Str × Str × Str)
  | [] => none
  | c :: t =>
    match matchVocabAt (c :: t) with
    | some g => some g
    | none => searchVocab t

/-! ## Page data model

What the PyMuPDF page decomposition supplies to the extractors: text spans
with bounding boxes and font flags, grouped into lines and blocks, and the
page's vector-drawing primitives. -/

/-- A point of a drawing primitive (`fitz.Point`). -/
structure PointT where
  x : ℚ
  y : ℚ
  deriving DecidableEq

/-- A rectangle (`fitz.Rect`), coordinates `x0, y0, x1, y1`.  Rectangles
coming from the drawing list are normalised (`x0 ≤ x1`, `y0 ≤ y1`). -/
structure RectT where
  x0 : ℚ
  y0 : ℚ
  x1 : ℚ
  y1 : ℚ
  deriving DecidableEq

/-- `fitz.Rect(p1, p2)`. -/
def rectOfPoints (p1 p2 : PointT) : RectT := ⟨p1.x, p1.y, p2.x, p2.y⟩

/-- `Rect.height` of a normalised rectangle. -/
def RectT.height (r : RectT) : ℚ := r.y1 - r.y0

/-- `Rect.width` of a normalised rectangle. -/
def RectT.width (r : RectT) : ℚ := r.x1 - r.x0

/-- One item of a drawing path from `page.get_drawings()`: a line command
(`"l"`), a rectangle command (`"re"`), or any other command (curves etc.),
which the underline detector ignores. -/
inductive Prim where
  | line (p1 p2 : PointT)
  | re (r : RectT)
  | other
  deriving DecidableEq

/-- A text span: its text, bounding box `(x0, y0, x1, y1)` and font flags
(bit 16 is the bold bit). -/
structure Span where
  text : Str
  x0 : ℚ
  y0 : ℚ
  x1 : ℚ
  y1 : ℚ
  flags : Nat
  deriving DecidableEq

/-- A line of the `page.get_text("dict")` decomposition. -/
structure LineT where
  spans : List Span
  deriving DecidableEq

/-- A page, as the extractors consume it: the drawing paths (each a list of
items) and the text blocks that carry lines (blocks without a `'lines'` key
are skipped by the scanners, so they are omitted from the model). -/
structure PageT where
  drawings : List (List Prim)
  blocks : List (List LineT)
  deriving DecidableEq

/-- Python `"".join(span['text'] for span in spans)`. -/
def lineText (spans : List Span) : Str := (spans.map Span.text).flatten

/-- The `line_text` variable of the scanners: the line's span texts joined
and stripped. -/
def lineTextOf (ln : LineT) : Str := pyStrip (lineText ln.spans)

/-- The output record (CSV row).  Fields the code never sets render as empty
strings through `csv.DictWriter`, so they default to `[]` here. -/
structure Record where
  type : Str := []
  number : Str := []
  dialogue : Str := []
  question : Str := []
  choices : Str := []
  answer : Str := []
  sourcePage : Nat := 0
  deriving DecidableEq

/-- The placeholder token substituted for an excised answer. -/
def placeholder : Str := " (______) ".data

/-! ## `JLPT-pdf-csv.py` -/

namespace PdfCsv

/-- `get_underlines(page)`: collect, over all drawing paths and their items,
the near-horizontal line segments (endpoint vertical delta at most 2) as
rectangles spanning their endpoints, and the thin rectangles (height at most
2, strictly positive width). -/
def get_underlines (drawings : List (List Prim)) : List RectT :=
  drawings.foldl
    (fun uls path =>
      path.foldl
        (fun uls item =>
          match item with
          | .line p1 p2 => if |p1.y - p2.y| ≤ 2 then uls ++ [rectOfPoints p1 p2] else uls
          | .re r => if r.height ≤ 2 ∧ r.width > 0 then uls ++ [r] else uls
          | .other => uls)
        uls)
    []

/-- `is_span_marked(span, underlines)`: bold flag (bit 16), or an underline
whose horizontal extent contains the span's horizontal midpoint and whose top
edge is 0 to 4 units (half-open) below the span's bottom edge. -/
def is_span_marked (span : Span) (underlines : List RectT) : Bool :=
  if span.flags &&& 16 ≠ 0 then true
  else
    let mid := (span.x0 + span.x1) / 2
    underlines.any fun r =>
      decide (r.x0 ≤ mid) && decide (mid ≤ r.x1) &&
      decide (0 ≤ r.y0 - span.y1) && decide (r.y0 - span.y1 < 4)

/-- The in-progress grammar question accumulator. -/
structure Acc where
  number : Str
  spans : List (List Span)
  page : Nat
  deriving DecidableEq

/-- The concatenated full sentence of an accumulator: each line's span texts
joined, lines separated by `'\n'`, then stripped. -/
def fullSentence (d : Acc) : Str :=
  pyStrip ((d.spans.map fun ls => lineText ls ++ ['\n']).flatten)

/-- The concatenated marked-span text of an accumulator (order preserving,
no separator), then stripped. -/
def answerText (d : Acc) (uls : List RectT) : Str :=
  pyStrip ((d.spans.map fun ls =>
    lineText (ls.filter fun sp => is_span_marked sp uls)).flatten)

/-- `process_and_save_grammar_question(data, page_underlines)`: finalize the
accumulator (if any) into a Grammar/Reading record appended to `out`.  When
the (stripped) marked text is non-empty its first occurrence in the full
sentence is replaced by the placeholder; the leading `N.` ordinal is then
stripped and the result whitespace-stripped. -/
def process_and_save_grammar_question (out : List Record) (data : Option Acc)
    (uls : List RectT) : List Record :=
  match data with
  | none => out
  | some d =>
    let full := fullSentence d
    let ans := answerText d uls
    let qt := if ans ≠ [] then replaceFirst full ans placeholder else full
    let qt := pyStrip (stripOrdinal qt)
    out ++ [{ type := "Grammar/Reading".data, number := d.number, question := qt,
              answer := ans, sourcePage := d.page }]

/-- Top-level section of the grammar/vocab answer-key scan. -/
inductive Sect where
  | vocab
  | grammar
  deriving DecidableEq

/-- The scan state of `extract_grammar_vocab_questions`: current section,
current mondai ordinal, the open accumulator, and the records emitted so
far. -/
structure ScanSt where
  sect : Sect
  mondai : Nat
  acc : Option Acc
  out : List Record
  deriving DecidableEq

/-- The mondai-3 branch's `answer_text`: the stripped concatenation of the
line's marked spans. -/
def m3answer (ln : LineT) (uls : List RectT) : Str :=
  pyStrip (lineText (ln.spans.filter fun sp => is_span_marked sp uls))

/-- The mondai-3 branch's `question_text`: the raw span concatenation with
the first occurrence of a non-empty answer replaced by the placeholder, then
ordinal- and whitespace-stripped. -/
def m3question (ln : LineT) (uls : List RectT) : Str :=
  pyStrip (stripOrdinal
    (if m3answer ln uls ≠ [] then
      replaceFirst (lineText ln.spans) (m3answer ln uls) placeholder
    else lineText ln.spans))

/-- One scanned line of the grammar/vocab answer key.  `Except.error out`
models an uncaught exception escaping to the document-level handler with the
records accumulated so far (the only raising site is the mondai-4 branch,
whose `parts[0].split('.', 1)[1]` raises `IndexError` when the text left of
`'='` contains no `'.'`). -/
def stepLine (wm : List Str) (uls : List RectT) (pg : Nat) (st : ScanSt)
    (ln : LineT) : Except (List Record) ScanSt :=
  if wm.any fun w => strContains (lineTextOf ln) w then .ok st
  else if strContains (lineTextOf ln) "もじ・ごい".data then
    .ok { st with sect := .vocab,
                  out := process_and_save_grammar_question st.out st.acc uls,
                  acc := none }
  else if strContains (lineTextOf ln) "ぶんぽう・どっかい".data then
    .ok { st with sect := .grammar }
  else
    match matchMondai (lineTextOf ln) with
    | some n =>
      .ok { st with mondai := n,
                    out := process_and_save_grammar_question st.out st.acc uls,
                    acc := none }
    | none =>
      if st.mondai = 0 ∨ lineTextOf ln = [] then .ok st
      else
        match st.sect with
        | .grammar =>
          match matchNumDot (lineTextOf ln) with
          | some num =>
            .ok { st with out := process_and_save_grammar_question st.out st.acc uls,
                          acc := some ⟨num, [ln.spans], pg⟩ }
          | none =>
            match st.acc with
            | some a => .ok { st with acc := some { a with spans := a.spans ++ [ln.spans] } }
            | none => .ok st
        | .vocab =>
          if st.mondai = 3 ∧ (matchNumDot (lineTextOf ln)).isSome then
            .ok { st with out := st.out ++
              [{ type := "Fill-in-the-Blank".data,
                 number := firstField '.' (lineTextOf ln),
                 question := m3question ln uls, answer := m3answer ln uls,
                 sourcePage := pg }] }
          else if (st.mondai = 1 ∨ st.mondai = 2) ∧
              strContains (lineTextOf ln) ['「'] then
            match searchVocab (lineTextOf ln) with
            | some (n, qq, aa) =>
              .ok { st with out := st.out ++
                [{ type := "Vocabulary (Kanji/Kana)".data, number := n,
                   question := pyStrip qq, answer := pyStrip aa, sourcePage := pg }] }
            | none => .ok st
          else if st.mondai = 4 ∧ strContains (lineTextOf ln) ['='] then
            match splitFirst '=' (lineTextOf ln) with
            | some (l, r) =>
              match splitFirst '.' l with
              | some dp =>
                .ok { st with out := st.out ++
                  [{ type := "Synonym".data, number := pyStrip (firstField '.' l),
                     question := pyStrip dp.2, answer := pyStrip r, sourcePage := pg }] }
              | none => .error st.out
            | none => .ok st
          else if st.mondai = 5 ∧ strContains (lineTextOf ln) ['⇒'] then
            match splitFirst '⇒' (lineTextOf ln) with
            | some (l, r) =>
              .ok { st with out := st.out ++
                [{ type := "Sentence Construction".data, number := pyStrip l,
                   question := pyStrip l, answer := pyStrip r, sourcePage := pg }] }
            | none => .ok st
          else .ok st

/-- The per-page line loop: scan lines in order, stopping at the first
uncaught exception. -/
def scanLines (wm : List Str) (uls : List RectT) (pg : Nat) :
    ScanSt → List LineT → Except (List Record) ScanSt
  | st, [] => .ok st
  | st, ln :: rest =>
    match stepLine wm uls pg st ln with
    | .error out => .error out
    | .ok st' => scanLines wm uls pg st' rest

/-- The page loop: pages in order (1-based page numbers), threading the scan
state and remembering the last page's underline set (the source's leftover
`underlines` variable, used by the end-of-document flush). -/
def scanPagesAux (wm : List Str) :
    Nat → ScanSt → List RectT → List PageT → Except (List Record) (ScanSt × List RectT)
  | _, st, lastUls, [] => .ok (st, lastUls)
  | pg, st, _, p :: rest =>
    let uls := get_underlines p.drawings
    match scanLines wm uls pg st p.blocks.flatten with
    | .error out => .error out
    | .ok st' => scanPagesAux wm (pg + 1) st' uls rest

/-- `extract_grammar_vocab_questions(pdf_path, watermark_texts)`.  An escaped
exception is caught by the document-level handler, which returns the records
accumulated so far (skipping the end-of-document flush).  An empty document
raises `NameError` at the final flush (the `underlines` variable was never
assigned), likewise caught, yielding `[]`. -/
def extract_grammar_vocab_questions (wm : List Str) (pages : List PageT) : List Record :=
  match pages with
  | [] => []
  | _ =>
    match scanPagesAux wm 1 ⟨.vocab, 0, none, []⟩ [] pages with
    | .error out => out
    | .ok (st, uls) => process_and_save_grammar_question st.out st.acc uls

/-- The in-progress listening question of `extract_listening_questions`:
its number label and source page (`question`/`dialogue` are filled at
flush time). -/
structure LAcc where
  number : Str
  page : Nat
  deriving DecidableEq

/-- The listening scan state: open question, accumulated dialogue text, and
the records emitted so far. -/
structure LSt where
  acc : Option LAcc
  fd : Str
  out : List Record
  deriving DecidableEq

/-- Finalize an open listening question: split the stripped accumulated text
on newlines; with more than one part, the last part is the question and the
preceding parts, rejoined with newlines, the dialogue; with a single part,
that part is the question and the dialogue is empty. -/
def flushListening (out : List Record) (cur : Option LAcc) (fd : Str) : List Record :=
  match cur with
  | none => out
  | some c =>
    if (splitOn '\n' (pyStrip fd)).length > 1 then
      out ++ [{ type := "Listening".data, number := c.number,
                dialogue := joinNL (splitOn '\n' (pyStrip fd)).dropLast,
                question := lastPart (splitOn '\n' (pyStrip fd)),
                sourcePage := c.page }]
    else
      out ++ [{ type := "Listening".data, number := c.number,
                dialogue := [], question := pyStrip fd, sourcePage := c.page }]

/-- One page block of the listening script (the block's text, stripped).  A
block matching `^\d+番` flushes the open question and starts a new one whose
number is the block's *first line* and whose accumulated text is seeded with
`block_text.split('\n', 1)[-1]` (the text after the first newline — or the
whole block text when the block has a single line). -/
def stepBlock (wm : List Str) (pg : Nat) (s : LSt) (blockRaw : Str) : LSt :=
  if wm.any fun w => strContains (pyStrip blockRaw) w then s
  else if matchNumBan (pyStrip blockRaw) then
    { acc := some ⟨headPart (splitOn '\n' (pyStrip blockRaw)), pg⟩,
      fd := splitRem '\n' (pyStrip blockRaw) ++ ['\n'],
      out := flushListening s.out s.acc s.fd }
  else
    match s.acc with
    | some _ => { s with fd := s.fd ++ pyStrip blockRaw ++ ['\n'] }
    | none => s

/-- The page loop of the listening scanner (1-based page numbers). -/
def scanListenPages (wm : List Str) : Nat → LSt → List (List Str) → LSt
  | _, s, [] => s
  | pg, s, p :: rest => scanListenPages wm (pg + 1) (p.foldl (stepBlock wm pg) s) rest

/-- `extract_listening_questions(pdf_path, watermark_texts)`: scan the pages'
blocks in order, then unconditionally flush the still-open question. -/
def extract_listening_questions (wm : List Str) (pages : List (List Str)) : List Record :=
  flushListening (scanListenPages wm 1 ⟨none, [], []⟩ pages).out
    (scanListenPages wm 1 ⟨none, [], []⟩ pages).acc
    (scanListenPages wm 1 ⟨none, [], []⟩ pages).fd

end PdfCsv

/-! ## `JLPT-pdf-csv-grammar.py`

Its nested `get_underlines` and `is_span_marked` are textually identical to
the ones in `JLPT-pdf-csv.py`, so the `PdfCsv` definitions are reused. -/

namespace PdfCsvGrammar

/-- The in-progress question accumulator of the grammar-file scanner (here
the record type is chosen at open time from the current section). -/
structure GAcc where
  qtype : Str
  number : Str
  spans : List (List Span)
  page : Nat
  deriving DecidableEq

/-- Its full sentence: each line's span texts joined, lines separated by
newlines, stripped. -/
def fullSentence (d : GAcc) : Str :=
  pyStrip ((d.spans.map fun ls => lineText ls ++ ['\n']).flatten)

/-- Its concatenated marked-span text, stripped. -/
def answerText (d : GAcc) (uls : List RectT) : Str :=
  pyStrip ((d.spans.map fun ls =>
    lineText (ls.filter fun sp => PdfCsv.is_span_marked sp uls)).flatten)

/-- `process_and_save_question(data, page_underlines)`: finalize the open
accumulator.  Unlike `JLPT-pdf-csv.py`, *no placeholder substitution* is
performed here: the question is the full sentence with the leading ordinal
stripped; the detected answer is recorded alongside. -/
def process_and_save_question (out : List Record) (data : Option GAcc)
    (uls : List RectT) : List Record :=
  match data with
  | none => out
  | some d =>
    let full := fullSentence d
    let ans := answerText d uls
    let qt := pyStrip (stripOrdinal full)
    out ++ [{ type := d.qtype, number := d.number, question := qt,
              answer := ans, sourcePage := d.page }]

/-- The scan state of the grammar-file extractor. -/
structure GSt where
  sect : PdfCsv.Sect
  mondai : Nat
  acc : Option GAcc
  out : List Record
  deriving DecidableEq

/-- One scanned line of the grammar-file extractor: both sections accumulate
multi-line questions; only the record type differs by section.  No branch of
this loop can raise. -/
def stepLine (wm : List Str) (uls : List RectT) (pg : Nat) (st : GSt)
    (ln : LineT) : GSt :=
  if wm.any fun w => strContains (lineTextOf ln) w then st
  else if strContains (lineTextOf ln) "もじ・ごい".data then
    { st with sect := .vocab,
              out := process_and_save_question st.out st.acc uls,
              acc := none }
  else if strContains (lineTextOf ln) "ぶんぽう・どっかい".data then
    { st with sect := .grammar }
  else
    match matchMondai (lineTextOf ln) with
    | some n =>
      { st with mondai := n,
                out := process_and_save_question st.out st.acc uls,
                acc := none }
    | none =>
      if st.mondai = 0 ∨ lineTextOf ln = [] then st
      else
        match matchNumDot (lineTextOf ln) with
        | some num =>
          { st with out := process_and_save_question st.out st.acc uls,
                    acc := some ⟨if st.sect = .grammar then "Grammar/Reading".data
                                 else "Fill-in-the-Blank".data,
                                 num, [ln.spans], pg⟩ }
        | none =>
          match st.acc with
          | some a => { st with acc := some { a with spans := a.spans ++ [ln.spans] } }
          | none => st

/-- The per-page line loop. -/
def scanLines (wm : List Str) (uls : List RectT) (pg : Nat) (st : GSt)
    (lns : List LineT) : GSt :=
  lns.foldl (stepLine wm uls pg) st

/-- The page loop, threading the last page's underline set for the final
flush. -/
def scanPagesAux (wm : List Str) :
    Nat → GSt → List RectT → List PageT → GSt × List RectT
  | _, st, lastUls, [] => (st, lastUls)
  | pg, st, _, p :: rest =>
    let uls := PdfCsv.get_underlines p.drawings
    scanPagesAux wm (pg + 1) (scanLines wm uls pg st p.blocks.flatten) uls rest

/-- `extract_grammar_vocab_questions(pdf_path, watermark_texts)` of the
grammar file (an empty document yields `[]` through the caught `NameError`
at the final flush). -/
def extract_grammar_vocab_questions (wm : List Str) (pages : List PageT) : List Record :=
  match pages with
  | [] => []
  | _ =>
    let (st, uls) := scanPagesAux wm 1 ⟨.vocab, 0, none, []⟩ [] pages
    process_and_save_question st.out st.acc uls

/-! ### Stage 2: manual refinement -/

/-- A CSV row as `csv.DictReader` yields it: ordered field/value pairs. -/
abbrev Row := List (Str × Str)

/-- Lookup of the first entry with the given key. -/
def lookupA : Row → Str → Option Str
  | [], _ => none
  | (k', v) :: t, k => if k' = k then some v else lookupA t k

/-- Python `row.get(k, '')`. -/
def getField (row : Row) (k : Str) : Str := (lookupA row k).getD []

/-- Python `row[k] = v`: replace the value of the first entry with key `k`,
appending a new entry when the key is absent. -/
def setField : Row → Str → Str → Row
  | [], k, v => [(k, v)]
  | (k', v') :: t, k, v => if k' = k then (k, v) :: t else (k', v') :: setField t k v

/-- The loop body of `refine_with_manual_answers` on one row: when the
stripped answer is non-empty and occurs in the question, replace its first
occurrence there by the placeholder; otherwise leave the row unchanged. -/
def refineRow (row : Row) : Row :=
  let question := getField row "question".data
  let answer := pyStrip (getField row "answer".data)
  if answer ≠ [] ∧ strContains question answer then
    setField row "question".data (replaceFirst question answer placeholder)
  else row

/-- `refine_with_manual_answers(manual_csv_path, final_csv_path)` on the
parsed tabular content: the output keeps the input's header (the fieldnames
are read from the manual file) and refines each row in order. -/
def refine_with_manual_answers (header : List Str) (rows : List Row) :
    List Str × List Row := (header, rows.map refineRow)

end PdfCsvGrammar

/-! ## Record well-formedness predicates and concrete fixtures -/

/-- What actually holds of every record emitted by the grammar/vocab scanner
of `JLPT-pdf-csv.py`: its type is one of the five literals, and a
Sentence-Construction record has `number = question`. -/
def GVOk (r : Record) : Prop :=
  r.type = "Grammar/Reading".data ∨ r.type = "Fill-in-the-Blank".data ∨
  r.type = "Vocabulary (Kanji/Kana)".data ∨ r.type = "Synonym".data ∨
  (r.type = "Sentence Construction".data ∧ r.number = r.question)

/-- What holds of every record emitted by the listening scanner. -/
def ListenOk (r : Record) : Prop :=
  r.type = "Listening".data ∧ r.number ≠ [] ∧ r.question ≠ []

/-- `GVOk` lifted to the line scanner's result. -/
def ExOk : Except (List Record) PdfCsv.ScanSt → Prop
  | .error out => ∀ r ∈ out, GVOk r
  | .ok st => ∀ r ∈ st.out, GVOk r

/-- `GVOk` lifted to the page scanner's result. -/
def ExOk2 : Except (List Record) (PdfCsv.ScanSt × List RectT) → Prop
  | .error out => ∀ r ∈ out, GVOk r
  | .ok p => ∀ r ∈ p.1.out, GVOk r

/-- Invariant of the listening scan state: all emitted records satisfy
`ListenOk`, and an open question has a non-empty number and an accumulated
text containing at least one non-whitespace character. -/
def LOk (s : PdfCsv.LSt) : Prop :=
  (∀ r ∈ s.out, ListenOk r) ∧
  ∀ a, s.acc = some a → a.number ≠ [] ∧ ∃ c ∈ s.fd, pyIsSpace c = false

/-- A text line made of a single unstyled span (geometry irrelevant to the
scan branches exercised by the fixtures). -/
def mkLine (s : String) : LineT := ⟨[⟨s.data, 0, 0, 0, 0, 0⟩]⟩

/-- The C1 example accumulator: line `1.わたし　は　がくせい　です。` whose
span `がくせい` is marked (bold). -/
def c1Acc : PdfCsv.Acc :=
  ⟨"1".data,
   [[⟨"1.わたし　は　".data, 0, 0, 0, 0, 0⟩,
     ⟨"がくせい".data, 0, 0, 0, 0, 16⟩,
     ⟨"　です。".data, 0, 0, 0, 0, 0⟩]],
   1⟩

/-- The same example for the grammar-file finalizer. -/
def c1GAcc : PdfCsvGrammar.GAcc :=
  ⟨"Grammar/Reading".data, "1".data,
   [[⟨"1.わたし　は　".data, 0, 0, 0, 0, 0⟩,
     ⟨"がくせい".data, 0, 0, 0, 0, 16⟩,
     ⟨"　です。".data, 0, 0, 0, 0, 0⟩]],
   1⟩

/-- A document whose mondai-4 section contains a malformed line `=x` (no
`'.'` left of `'='`) followed by a well-formed synonym line. -/
def c3page : PageT :=
  ⟨[], [[mkLine "問題4", mkLine "=x", mkLine "3.いぬ=犬"]]⟩

/-- The same document without the malformed line. -/
def c3pageGood : PageT :=
  ⟨[], [[mkLine "問題4", mkLine "3.いぬ=犬"]]⟩

/-- A document producing a Sentence-Construction record with empty number
and question (line `⇒x`) and a Grammar/Reading record with empty question
(line `1.`, nothing after the ordinal). -/
def c5page : PageT :=
  ⟨[], [[mkLine "問題5", mkLine "⇒x", mkLine "ぶんぽう・どっかい",
         mkLine "問題2", mkLine "1."]]⟩

/-- The listening block sequence of the C2 example. -/
def c2blocks : List Str :=
  ["1番".data, "店員：いらっしゃいませ".data, "何を買いますか。".data]

/-- A row on which the refinement pass is not idempotent: the answer `a`
occurs twice in the question `aa`. -/
def c4row : PdfCsvGrammar.Row :=
  [("question".data, "aa".data), ("answer".data, "a".data)]

/-- A row whose answer occurs exactly once and, once replaced, no longer
occurs in the refined question. -/
def c4rowOnce : PdfCsvGrammar.Row :=
  [("question".data, "ねこが好き".data), ("answer".data, "ねこ".data)]

/-- A vocab-section scan state sitting in mondai 5 (fixture for the
Sentence-Construction branch). -/
def c10st : PdfCsv.ScanSt := ⟨.vocab, 5, none, []⟩

/-- A vocab-section scan state sitting in mondai 4 (fixture for the
malformed-synonym-line abort). -/
def c3st : PdfCsv.ScanSt := ⟨.vocab, 4, none, []⟩

/-! ## Claim C8: the underline detector -/

/-- The per-primitive underline rule as §4.1 of the spec states it: a line
primitive contributes the rectangle spanning its endpoints when the vertical
delta between the endpoints is at most 2; a rectangle primitive contributes
itself when its height is at most 2 and its width strictly positive; all
other primitives contribute nothing. -/
def specUnderlineOf : Prim → Option RectT
  | .line p1 p2 => if |p1.y - p2.y| ≤ 2 then some (rectOfPoints p1 p2) else none
  | .re r => if r.height ≤ 2 ∧ r.width > 0 then some r else none
  | .other => none

theorem foldl_underlines_inner (path : List Prim) :
    ∀ uls : List RectT,
      path.foldl
        (fun uls item =>
          match item with
          | Prim.line p1 p2 =>
            if |p1.y - p2.y| ≤ 2 then uls ++ [rectOfPoints p1 p2] else uls
          | Prim.re r => if r.height ≤ 2 ∧ r.width > 0 then uls ++ [r] else uls
          | Prim.other => uls)
        uls
      = uls ++ path.filterMap specUnderlineOf := by
  induction path with
  | nil => intro uls; simp
  | cons item rest ih =>
    intro uls
    cases item with
    | line p1 p2 =>
      by_cases h : |p1.y - p2.y| ≤ 2 <;>
        simp [List.foldl_cons, ih, specUnderlineOf, h]
    | re r =>
      by_cases h : r.height ≤ 2 ∧ r.width > 0 <;>
        simp [List.foldl_cons, ih, specUnderlineOf, h]
    | other => simp [List.foldl_cons, ih, specUnderlineOf]

/-- C8: for every page's drawing-primitive list, the underline detector
returns exactly the underline candidates of the primitives, in order: the
rectangles of the near-horizontal line primitives (endpoint vertical delta at
most 2) and the thin rectangle primitives (height at most 2, strictly
positive width), nothing for any other primitive; in particular an empty
primitive list yields an empty set. -/
theorem c8_underline_detector (drawings : List (List Prim)) :
    PdfCsv.get_underlines drawings = drawings.flatten.filterMap specUnderlineOf := by
  suffices h : ∀ (ds : List (List Prim)) (uls : List RectT),
      ds.foldl
        (fun uls path =>
          path.foldl
            (fun uls item =>
              match item with
              | Prim.line p1 p2 =>
                if |p1.y - p2.y| ≤ 2 then uls ++ [rectOfPoints p1 p2] else uls
              | Prim.re r => if r.height ≤ 2 ∧ r.width > 0 then uls ++ [r] else uls
              | Prim.other => uls)
            uls)
        uls
      = uls ++ ds.flatten.filterMap specUnderlineOf by
    simpa [PdfCsv.get_underlines] using h drawings []
  intro ds
  induction ds with
  | nil => intro uls; simp
  | cons path rest ih =>
    intro uls
    rw [List.foldl_cons, foldl_underlines_inner, ih]
    simp

/-! ## Claims C6 and C7: the span marking classifier -/

/-- C7: for every span whose style flags have the bold bit 16 set, the
marking classifier returns true immediately, whatever the underline set. -/
theorem c7_bold_short_circuit (sp : Span) (uls : List RectT)
    (h : sp.flags &&& 16 ≠ 0) : PdfCsv.is_span_marked sp uls = true := by
  unfold PdfCsv.is_span_marked
  simp [h]

theorem c7_bold_short_circuit_witness :
    (16 &&& 16 ≠ 0) ∧
      PdfCsv.is_span_marked ⟨"が".data, 40, 90, 60, 100, 16⟩ [] = true :=
  ⟨by decide, c7_bold_short_circuit ⟨"が".data, 40, 90, 60, 100, 16⟩ [] (by decide)⟩

/-- C6: for every span without the bold bit, the classifier returns true iff
some underline's horizontal extent contains the span's horizontal midpoint
and the underline's top edge minus the span's bottom edge lies in `[0, 4)`. -/
theorem c6_geometric_marking (sp : Span) (uls : List RectT)
    (h : sp.flags &&& 16 = 0) :
    PdfCsv.is_span_marked sp uls = true ↔
      ∃ r ∈ uls, (r.x0 ≤ (sp.x0 + sp.x1) / 2 ∧ (sp.x0 + sp.x1) / 2 ≤ r.x1) ∧
        0 ≤ r.y0 - sp.y1 ∧ r.y0 - sp.y1 < 4 := by
  unfold PdfCsv.is_span_marked
  simp [h, List.any_eq_true, and_assoc]

theorem c6_geometric_marking_witness :
    ((0 : Nat) &&& 16 = 0) ∧
      PdfCsv.is_span_marked ⟨"が".data, 30, 90, 70, 100, 0⟩ [⟨40, 102, 60, 102⟩] = true ∧
      PdfCsv.is_span_marked ⟨"が".data, 30, 90, 70, 100, 0⟩ [⟨40, 105, 60, 105⟩] = false ∧
      PdfCsv.is_span_marked ⟨"が".data, 30, 90, 70, 100, 0⟩ [⟨61, 102, 80, 102⟩] = false := by
  refine ⟨by decide, ?_, ?_, ?_⟩
  · exact (c6_geometric_marking ⟨"が".data, 30, 90, 70, 100, 0⟩ [⟨40, 102, 60, 102⟩]
      (by decide)).mpr ⟨⟨40, 102, 60, 102⟩, by simp, by norm_num, by norm_num⟩
  · rw [Bool.eq_false_iff]
    intro hm
    obtain ⟨r, hr, ⟨h1, h2⟩, h3, h4⟩ :=
      (c6_geometric_marking ⟨"が".data, 30, 90, 70, 100, 0⟩ [⟨40, 105, 60, 105⟩]
        (by decide)).mp hm
    simp only [List.mem_singleton] at hr
    subst hr
    norm_num at h4
  · rw [Bool.eq_false_iff]
    intro hm
    obtain ⟨r, hr, ⟨h1, h2⟩, h3, h4⟩ :=
      (c6_geometric_marking ⟨"が".data, 30, 90, 70, 100, 0⟩ [⟨61, 102, 80, 102⟩]
        (by decide)).mp hm
    simp only [List.mem_singleton] at hr
    subst hr
    norm_num at h1

/-! ## Claim C1: the grammar/reading finalizer -/

theorem replaceFirst_of_not_contains (pat rep : Str) :
    ∀ s : Str, strContains s pat = false → replaceFirst s pat rep = s := by
  intro s
  induction s with
  | nil =>
    intro h
    unfold strContains at h
    unfold replaceFirst
    by_cases hp : pat.isPrefixOf [] <;> simp_all
  | cons c t ih =>
    intro h
    unfold strContains at h
    unfold replaceFirst
    by_cases hp : pat.isPrefixOf (c :: t) <;> simp_all

/-- C1 (amended): finalizing an accumulator appends exactly one record whose
answer is the stripped marked-span concatenation.  In `JLPT-pdf-csv.py`, when
that answer is non-empty the question is the full sentence with the first
occurrence of the answer replaced by the placeholder (a no-op when the answer
is not a substring), then ordinal- and whitespace-stripped; when the answer
is empty the question is the ordinal-stripped full sentence.  In
`JLPT-pdf-csv-grammar.py` no substitution happens at this stage: the question
is always the ordinal-stripped full sentence.  (For the spec's example input
the emitted question is `わたし　は　 (______) 　です。`, retaining the
ideographic spaces around the replaced span — not the spec's quoted
`わたし　は (______)  です。`.) -/
theorem c1_finalizer_questions (out : List Record) (uls : List RectT)
    (d : PdfCsv.Acc) (g : PdfCsvGrammar.GAcc) :
    (∃ r, PdfCsv.process_and_save_grammar_question out (some d) uls = out ++ [r] ∧
      r.type = "Grammar/Reading".data ∧ r.number = d.number ∧
      r.answer = PdfCsv.answerText d uls ∧
      (PdfCsv.answerText d uls ≠ [] →
        r.question = pyStrip (stripOrdinal (replaceFirst (PdfCsv.fullSentence d)
          (PdfCsv.answerText d uls) placeholder))) ∧
      (PdfCsv.answerText d uls = [] ∨
          strContains (PdfCsv.fullSentence d) (PdfCsv.answerText d uls) = false →
        r.question = pyStrip (stripOrdinal (PdfCsv.fullSentence d)))) ∧
    (∃ r, PdfCsvGrammar.process_and_save_question out (some g) uls = out ++ [r] ∧
      r.type = g.qtype ∧ r.number = g.number ∧
      r.answer = PdfCsvGrammar.answerText g uls ∧
      r.question = pyStrip (stripOrdinal (PdfCsvGrammar.fullSentence g))) := by
  constructor
  · refine ⟨_, rfl, rfl, rfl, rfl, ?_, ?_⟩
    · intro h
      simp only [PdfCsv.process_and_save_grammar_question, h, ne_eq,
        not_false_iff, if_true]
    · rintro (h | h)
      · simp only [PdfCsv.process_and_save_grammar_question, h, ne_eq,
          not_true, if_false, ite_self]
      · by_cases he : PdfCsv.answerText d uls = []
        · simp only [PdfCsv.process_and_save_grammar_question, he, ne_eq,
            not_true, if_false, ite_self]
        · simp only [PdfCsv.process_and_save_grammar_question, he, ne_eq,
            not_false_iff, if_true, replaceFirst_of_not_contains _ _ _ h]
  · exact ⟨_, rfl, rfl, rfl, rfl, rfl⟩

theorem c1_finalizer_questions_witness :
    PdfCsv.answerText c1Acc [] = "がくせい".data ∧
    ∃ r, PdfCsv.process_and_save_grammar_question [] (some c1Acc) [] = [r] ∧
      r.question = pyStrip (stripOrdinal (replaceFirst (PdfCsv.fullSentence c1Acc)
        (PdfCsv.answerText c1Acc []) placeholder)) ∧
      r.question = "わたし　は　 (______) 　です。".data := by
  obtain ⟨⟨r, hr, _, _, _, hq, _⟩, _⟩ := c1_finalizer_questions [] [] c1Acc c1GAcc
  refine ⟨by decide, r, by simpa using hr, hq (by decide), ?_⟩
  rw [hq (by decide)]
  decide

/-- C1 fails as stated: on the spec's own example the emitted question is
`わたし　は　 (______) 　です。` (the ideographic spaces survive the
substitution), not the claimed `わたし　は (______)  です。`; and the
`JLPT-pdf-csv-grammar.py` finalizer cited by the claim performs no
substitution at all even though the answer is a non-empty substring. -/
theorem c1_counterexample :
    ((PdfCsv.process_and_save_grammar_question [] (some c1Acc) []).map Record.question
        ≠ ["わたし　は (______)  です。".data]) ∧
    ((PdfCsvGrammar.process_and_save_question [] (some c1GAcc) []).map Record.question
        = ["わたし　は　がくせい　です。".data]) ∧
    PdfCsvGrammar.answerText c1GAcc [] = "がくせい".data ∧
    strContains (PdfCsvGrammar.fullSentence c1GAcc) "がくせい".data = true := by
  refine ⟨by decide, by decide, by decide, by decide⟩

/-! ## Claim C2: the listening block segmenter

On the spec's example block sequence the code does *not* seed the
accumulated text with only the remainder of the label block:
`"1番".split('\n', 1)[-1]` is `"1番"` itself (a one-element list's `[-1]`),
so the label line leaks into the dialogue. -/

theorem c2_label_leaks_into_dialogue :
    PdfCsv.extract_listening_questions [] [c2blocks] =
      [{ type := "Listening".data, number := "1番".data,
         dialogue := "1番\n店員：いらっしゃいませ".data,
         question := "何を買いますか。".data, sourcePage := 1 }] ∧
    splitRem '\n' "1番".data = "1番".data := by
  exact ⟨by decide, by decide⟩

/-! ## Claims C4 and C9: the manual-refinement pass -/

namespace PdfCsvGrammar

theorem lookupA_setField_ne (k k' : Str) (v : Str) (h : k' ≠ k) :
    ∀ l : Row, lookupA (setField l k v) k' = lookupA l k' := by
  intro l
  induction l with
  | nil => simp [setField, lookupA, Ne.symm h]
  | cons e t ih =>
    obtain ⟨ek, ev⟩ := e
    by_cases hek : ek = k
    · subst hek
      simp [setField, lookupA, Ne.symm h]
    · by_cases hek' : ek = k'
      · subst hek'
        simp [setField, lookupA, hek, h]
      · simp [setField, lookupA, hek, hek', ih]

theorem lookupA_setField_self (k : Str) (v : Str) :
    ∀ l : Row, lookupA (setField l k v) k = some v := by
  intro l
  induction l with
  | nil => simp [setField, lookupA]
  | cons e t ih =>
    obtain ⟨ek, ev⟩ := e
    by_cases hek : ek = k <;> simp [setField, lookupA, hek, ih]

theorem setField_map_fst_of_mem (k : Str) (v : Str) :
    ∀ l : Row, k ∈ l.map Prod.fst → (setField l k v).map Prod.fst = l.map Prod.fst := by
  intro l
  induction l with
  | nil => simp
  | cons e t ih =>
    obtain ⟨ek, ev⟩ := e
    intro hmem
    by_cases hek : ek = k
    · subst hek; simp [setField]
    · simp only [List.map_cons, List.mem_cons] at hmem
      rcases hmem with h | h
      · exact absurd h.symm hek
      · simp [setField, hek, ih h]

theorem strContains_nil (pat : Str) (h : strContains [] pat = true) : pat = [] := by
  unfold strContains at h
  by_cases hp : pat.isPrefixOf ([] : Str)
  · cases pat with
    | nil => rfl
    | cons c t => simp [List.isPrefixOf] at hp
  · simp [hp] at h

theorem refineRow_eq_of_neg (row : Row)
    (hc : ¬(pyStrip (getField row "answer".data) ≠ [] ∧
        strContains (getField row "question".data)
          (pyStrip (getField row "answer".data)) = true)) :
    refineRow row = row := by
  simp only [refineRow]
  rw [if_neg hc]

theorem refineRow_eq_of_pos (row : Row)
    (h1 : pyStrip (getField row "answer".data) ≠ [])
    (h2 : strContains (getField row "question".data)
        (pyStrip (getField row "answer".data)) = true) :
    refineRow row = setField row "question".data
      (replaceFirst (getField row "question".data)
        (pyStrip (getField row "answer".data)) placeholder) := by
  simp only [refineRow]
  rw [if_pos ⟨h1, h2⟩]

theorem refineRow_lookup_ne (row : Row) (k : Str) (hk : k ≠ "question".data) :
    lookupA (refineRow row) k = lookupA row k := by
  by_cases hc : pyStrip (getField row "answer".data) ≠ [] ∧
      strContains (getField row "question".data)
        (pyStrip (getField row "answer".data)) = true
  · rw [refineRow_eq_of_pos row hc.1 hc.2, lookupA_setField_ne _ _ _ hk]
  · rw [refineRow_eq_of_neg row hc]

theorem refineRow_answer (row : Row) :
    getField (refineRow row) "answer".data = getField row "answer".data := by
  unfold getField
  rw [refineRow_lookup_ne row _ (by decide)]

end PdfCsvGrammar

/-- C4 (amended): the refinement pass is idempotent on every record whose
stripped answer is empty or no longer occurs in the refined question (in
particular whenever the answer occurred exactly once and shares no text with
the placeholder); when the answer still occurs after the first substitution,
a second substitution happens. -/
theorem c4_refine_idempotent (row : PdfCsvGrammar.Row)
    (h : pyStrip (PdfCsvGrammar.getField row "answer".data) = [] ∨
      strContains (PdfCsvGrammar.getField (PdfCsvGrammar.refineRow row) "question".data)
        (pyStrip (PdfCsvGrammar.getField row "answer".data)) = false) :
    PdfCsvGrammar.refineRow (PdfCsvGrammar.refineRow row) = PdfCsvGrammar.refineRow row := by
  rcases h with h | h
  · have e : PdfCsvGrammar.refineRow row = row := by
      apply PdfCsvGrammar.refineRow_eq_of_neg
      rintro ⟨h1, _⟩
      exact h1 h
    rw [e]
    apply PdfCsvGrammar.refineRow_eq_of_neg
    rintro ⟨h1, _⟩
    exact h1 h
  · apply PdfCsvGrammar.refineRow_eq_of_neg
    rintro ⟨h1, h2⟩
    rw [PdfCsvGrammar.refineRow_answer] at h1 h2
    rw [h] at h2
    exact Bool.false_ne_true h2

theorem c4_refine_idempotent_witness :
    (strContains (PdfCsvGrammar.getField (PdfCsvGrammar.refineRow c4rowOnce) "question".data)
        (pyStrip (PdfCsvGrammar.getField c4rowOnce "answer".data)) = false) ∧
    PdfCsvGrammar.refineRow (PdfCsvGrammar.refineRow c4rowOnce) = PdfCsvGrammar.refineRow c4rowOnce :=
  ⟨by decide, c4_refine_idempotent c4rowOnce (Or.inr (by decide))⟩

theorem mem_of_lookupA_isSome (k : Str) :
    ∀ l : PdfCsvGrammar.Row, (PdfCsvGrammar.lookupA l k).isSome → k ∈ l.map Prod.fst := by
  intro l
  induction l with
  | nil => simp [PdfCsvGrammar.lookupA]
  | cons e t ih =>
    obtain ⟨ek, ev⟩ := e
    by_cases h : ek = k
    · subst h
      simp
    · simp only [PdfCsvGrammar.lookupA, h, if_false, List.map_cons, List.mem_cons]
      intro hs
      exact Or.inr (ih hs)

/-- C9: the manual-correction re-pass keeps the caller's column order and the
row count; on each row only the `question` field can change (and does so by
replacing the first occurrence of the stripped answer with the placeholder,
exactly when that answer is non-empty and occurs in the question); every
other field, and whole rows failing that condition, pass through
unchanged. -/
theorem c9_refine_pass_frame (header : List Str) (rows : List PdfCsvGrammar.Row) :
    (PdfCsvGrammar.refine_with_manual_answers header rows).1 = header ∧
    (PdfCsvGrammar.refine_with_manual_answers header rows).2.length = rows.length ∧
    (PdfCsvGrammar.refine_with_manual_answers header rows).2
        = rows.map PdfCsvGrammar.refineRow ∧
    ∀ row ∈ rows,
      ((PdfCsvGrammar.refineRow row).map Prod.fst = row.map Prod.fst) ∧
      (∀ k, k ≠ "question".data →
        PdfCsvGrammar.lookupA (PdfCsvGrammar.refineRow row) k
          = PdfCsvGrammar.lookupA row k) ∧
      (pyStrip (PdfCsvGrammar.getField row "answer".data) = [] ∨
          strContains (PdfCsvGrammar.getField row "question".data)
            (pyStrip (PdfCsvGrammar.getField row "answer".data)) = false →
        PdfCsvGrammar.refineRow row = row) ∧
      (pyStrip (PdfCsvGrammar.getField row "answer".data) ≠ [] →
        strContains (PdfCsvGrammar.getField row "question".data)
            (pyStrip (PdfCsvGrammar.getField row "answer".data)) = true →
        PdfCsvGrammar.lookupA (PdfCsvGrammar.refineRow row) "question".data
          = some (replaceFirst (PdfCsvGrammar.getField row "question".data)
              (pyStrip (PdfCsvGrammar.getField row "answer".data)) placeholder)) := by
  refine ⟨rfl, by simp [PdfCsvGrammar.refine_with_manual_answers], rfl, ?_⟩
  intro row _
  refine ⟨?_, fun k hk => PdfCsvGrammar.refineRow_lookup_ne row k hk, ?_, ?_⟩
  · by_cases hc : pyStrip (PdfCsvGrammar.getField row "answer".data) ≠ [] ∧
        strContains (PdfCsvGrammar.getField row "question".data)
          (pyStrip (PdfCsvGrammar.getField row "answer".data)) = true
    · rw [PdfCsvGrammar.refineRow_eq_of_pos row hc.1 hc.2]
      apply PdfCsvGrammar.setField_map_fst_of_mem
      apply mem_of_lookupA_isSome
      have hq : PdfCsvGrammar.getField row "question".data ≠ [] := by
        intro he
        rw [he] at hc
        exact hc.1 (PdfCsvGrammar.strContains_nil _ hc.2)
      unfold PdfCsvGrammar.getField at hq
      cases hlk : PdfCsvGrammar.lookupA row "question".data with
      | none => rw [hlk] at hq; simp at hq
      | some v => simp
    · rw [PdfCsvGrammar.refineRow_eq_of_neg row hc]
  · rintro (h | h)
    · apply PdfCsvGrammar.refineRow_eq_of_neg
      rintro ⟨h1, _⟩
      exact h1 h
    · apply PdfCsvGrammar.refineRow_eq_of_neg
      rintro ⟨_, h2⟩
      rw [h] at h2
      exact Bool.false_ne_true h2
  · intro h1 h2
    rw [PdfCsvGrammar.refineRow_eq_of_pos row h1 h2]
    exact PdfCsvGrammar.lookupA_setField_self _ _ _

theorem c9_refine_pass_frame_witness :
    (PdfCsvGrammar.refine_with_manual_answers ["question".data, "answer".data] [c4rowOnce]).1
        = ["question".data, "answer".data] ∧
    PdfCsvGrammar.lookupA (PdfCsvGrammar.refineRow c4rowOnce) "answer".data
        = PdfCsvGrammar.lookupA c4rowOnce "answer".data ∧
    PdfCsvGrammar.lookupA (PdfCsvGrammar.refineRow c4rowOnce) "question".data
        = some (replaceFirst "ねこが好き".data "ねこ".data placeholder) := by
  obtain ⟨h1, _, _, h4⟩ :=
    c9_refine_pass_frame ["question".data, "answer".data] [c4rowOnce]
  obtain ⟨_, hne, _, hpos⟩ := h4 c4rowOnce (by simp)
  refine ⟨h1, hne _ (by decide), ?_⟩
  rw [hpos (by decide) (by decide)]
  decide

/-! ## Claim C3: failure propagation

The whole document loop of `extract_grammar_vocab_questions` sits in a single
`try`/`except`, so the `IndexError` raised by a mondai-4 line whose left part
has no `'.'` aborts the scan of *all* remaining lines and pages (and skips
the end-of-document flush), returning only the records emitted before it. -/

/-- C3 (amended): a mondai-4 line containing `'='` whose left part has no
`'.'` makes the line scan raise; the remaining lines of the page, the
remaining pages, and the final flush are all skipped, and the run returns
exactly the records accumulated so far. -/
theorem c3_mondai4_aborts_scan (wm : List Str) (pg : Nat) (st : PdfCsv.ScanSt)
    (ln : LineT) (rest : List LineT) (dr : List (List Prim)) (uls : List RectT)
    (morePages : List PageT) (lastUls : List RectT) (l r : Str)
    (huls : PdfCsv.get_underlines dr = uls)
    (hw : (wm.any fun w => strContains (lineTextOf ln) w) = false)
    (hm1 : strContains (lineTextOf ln) "もじ・ごい".data = false)
    (hm2 : strContains (lineTextOf ln) "ぶんぽう・どっかい".data = false)
    (hmd : matchMondai (lineTextOf ln) = none)
    (hsect : st.sect = PdfCsv.Sect.vocab)
    (hmondai : st.mondai = 4)
    (hne : lineTextOf ln ≠ [])
    (hcont : strContains (lineTextOf ln) ['='] = true)
    (hsplit : splitFirst '=' (lineTextOf ln) = some (l, r))
    (hdot : splitFirst '.' l = none) :
    PdfCsv.stepLine wm uls pg st ln = .error st.out ∧
    PdfCsv.scanLines wm uls pg st (ln :: rest) = .error st.out ∧
    PdfCsv.scanPagesAux wm pg st lastUls (⟨dr, [ln :: rest]⟩ :: morePages)
      = .error st.out := by
  have hstep : PdfCsv.stepLine wm uls pg st ln = .error st.out := by
    unfold PdfCsv.stepLine
    simp [hw, hm1, hm2, hmd, hsect, hmondai, hne, hcont, hsplit, hdot]
  have hlines : ∀ rest' : List LineT,
      PdfCsv.scanLines wm uls pg st (ln :: rest') = .error st.out := by
    intro rest'
    unfold PdfCsv.scanLines
    rw [hstep]
  refine ⟨hstep, hlines rest, ?_⟩
  unfold PdfCsv.scanPagesAux
  simp only [huls]
  rw [show (PageT.mk dr [ln :: rest]).blocks.flatten = ln :: (rest ++ []) by simp]
  rw [hlines (rest ++ [])]

theorem c3_mondai4_aborts_scan_witness :
    PdfCsv.scanPagesAux [] 1 c3st [] [⟨[], [[mkLine "=x", mkLine "3.いぬ=犬"]]⟩]
      = .error c3st.out :=
  (c3_mondai4_aborts_scan [] 1 c3st (mkLine "=x") [mkLine "3.いぬ=犬"] [] [] [] []
    [] "x".data (by decide) (by decide) (by decide) (by decide) (by decide)
    (by decide) (by decide) (by decide) (by decide) (by decide) (by decide)).2.2

/-- C3 fails as stated: in a document whose mondai-4 section has the
malformed line `=x` followed by the well-formed line `3.いぬ=犬`, the whole
scan aborts and the later line's record is lost — the same document without
the malformed line does produce that record. -/
theorem c3_counterexample :
    PdfCsv.extract_grammar_vocab_questions [] [c3page] = [] ∧
    PdfCsv.extract_grammar_vocab_questions [] [c3pageGood]
      = [{ type := "Synonym".data, number := "3".data, question := "いぬ".data,
           answer := "犬".data, sourcePage := 1 }] := by
  exact ⟨by decide, by decide⟩

/-- C4 fails as stated: with question `aa` and answer `a`, the answer still
occurs after the first substitution, so a second pass substitutes again. -/
theorem c4_counterexample :
    PdfCsvGrammar.refineRow (PdfCsvGrammar.refineRow c4row) ≠ PdfCsvGrammar.refineRow c4row ∧
    PdfCsvGrammar.getField (PdfCsvGrammar.refineRow c4row) "question".data
      = " (______) a".data ∧
    PdfCsvGrammar.getField (PdfCsvGrammar.refineRow (PdfCsvGrammar.refineRow c4row))
        "question".data = " (______)  (______) ".data := by
  exact ⟨by decide, by decide, by decide⟩

/-! ## Output invariants of the grammar/vocab scanner (for C5 and C10) -/

theorem process_and_save_ok (out : List Record) (acc : Option PdfCsv.Acc)
    (uls : List RectT) (hout : ∀ r ∈ out, GVOk r) :
    ∀ r ∈ PdfCsv.process_and_save_grammar_question out acc uls, GVOk r := by
  cases acc with
  | none => simpa [PdfCsv.process_and_save_grammar_question] using hout
  | some d =>
    intro r hr
    simp only [PdfCsv.process_and_save_grammar_question] at hr
    rcases List.mem_append.mp hr with h | h
    · exact hout r h
    · simp only [List.mem_singleton] at h
      subst h
      exact Or.inl rfl

theorem stepLine_ok (wm : List Str) (uls : List RectT) (pg : Nat)
    (st : PdfCsv.ScanSt) (ln : LineT) (hout : ∀ r ∈ st.out, GVOk r) :
    ExOk (PdfCsv.stepLine wm uls pg st ln) := by
  unfold PdfCsv.stepLine
  repeat' split
  all_goals first
    | exact hout
    | exact process_and_save_ok _ _ _ hout
    | { intro r hr
        rcases List.mem_append.mp hr with h | h
        · exact hout r h
        · simp only [List.mem_singleton] at h
          subst h
          first
          | exact Or.inl rfl
          | exact Or.inr (Or.inl rfl)
          | exact Or.inr (Or.inr (Or.inl rfl))
          | exact Or.inr (Or.inr (Or.inr (Or.inl rfl)))
          | exact Or.inr (Or.inr (Or.inr (Or.inr ⟨rfl, rfl⟩))) }

theorem scanLines_ok (wm : List Str) (uls : List RectT) (pg : Nat) :
    ∀ (lns : List LineT) (st : PdfCsv.ScanSt),
      (∀ r ∈ st.out, GVOk r) → ExOk (PdfCsv.scanLines wm uls pg st lns) := by
  intro lns
  induction lns with
  | nil => intro st hout; exact hout
  | cons ln rest ih =>
    intro st hout
    unfold PdfCsv.scanLines
    have h := stepLine_ok wm uls pg st ln hout
    cases hstep : PdfCsv.stepLine wm uls pg st ln with
    | error out => rw [hstep] at h; exact h
    | ok st' => rw [hstep] at h; exact ih st' h

theorem scanPagesAux_ok (wm : List Str) :
    ∀ (pages : List PageT) (pg : Nat) (st : PdfCsv.ScanSt) (lastUls : List RectT),
      (∀ r ∈ st.out, GVOk r) → ExOk2 (PdfCsv.scanPagesAux wm pg st lastUls pages) := by
  intro pages
  induction pages with
  | nil => intro pg st lastUls hout; exact hout
  | cons p rest ih =>
    intro pg st lastUls hout
    simp only [PdfCsv.scanPagesAux]
    have h := scanLines_ok wm (PdfCsv.get_underlines p.drawings) pg p.blocks.flatten st hout
    cases hscan : PdfCsv.scanLines wm (PdfCsv.get_underlines p.drawings) pg st p.blocks.flatten with
    | error out => rw [hscan] at h; exact h
    | ok st' => rw [hscan] at h; exact ih (pg + 1) st' (PdfCsv.get_underlines p.drawings) h

/-! ### String lemmas for the listening invariant -/

theorem mem_dropWhile_of_not (p : Char → Bool) :
    ∀ (l : Str) (x : Char), x ∈ l → p x = false → x ∈ l.dropWhile p := by
  intro l
  induction l with
  | nil => intro x hx _; simp at hx
  | cons c t ih =>
    intro x hx hp
    rcases List.mem_cons.mp hx with rfl | hx'
    · simp [List.dropWhile_cons, hp]
    · by_cases hc : p c = true
      · simpa [List.dropWhile_cons, hc] using ih x hx' hp
      · simp only [Bool.not_eq_true] at hc
        simp [List.dropWhile_cons, hc]
        exact Or.inr hx'

theorem head_dropWhile_false (p : Char → Bool) :
    ∀ (l : Str) (c : Char), (l.dropWhile p).head? = some c → p c = false := by
  intro l
  induction l with
  | nil => intro c h; simp at h
  | cons a t ih =>
    intro c h
    by_cases ha : p a = true
    · rw [List.dropWhile_cons, if_pos ha] at h
      exact ih c h
    · rw [List.dropWhile_cons, if_neg ha] at h
      simp only [List.head?_cons, Option.some_inj] at h
      subst h
      exact Bool.not_eq_true _ ▸ ha

theorem pyStrip_ne_nil (s : Str) (c : Char) (hc : c ∈ s)
    (hp : pyIsSpace c = false) : pyStrip s ≠ [] := by
  unfold pyStrip pyStripRight pyStripLeft
  intro h
  rw [List.reverse_eq_nil_iff] at h
  have h1 : c ∈ s.dropWhile pyIsSpace := mem_dropWhile_of_not _ s c hc hp
  have h2 : c ∈ (s.dropWhile pyIsSpace).reverse := List.mem_reverse.mpr h1
  have h3 := mem_dropWhile_of_not _ _ c h2 hp
  rw [h] at h3
  simp at h3

theorem pyStrip_getLast_not_space (s : Str) (c : Char)
    (h : (pyStrip s).getLast? = some c) : pyIsSpace c = false := by
  unfold pyStrip pyStripRight at h
  rw [List.getLast?_reverse] at h
  exact head_dropWhile_false _ _ _ h

theorem splitOn_cons_eq (c a : Char) (t : Str) (h : Str) (r : List Str)
    (hsp : splitOn c t = h :: r) :
    splitOn c (a :: t) = if a = c then [] :: h :: r else (a :: h) :: r := by
  unfold splitOn
  rw [hsp]

theorem splitOn_ne_nil (c : Char) : ∀ s : Str, splitOn c s ≠ [] := by
  intro s
  induction s with
  | nil => simp [splitOn]
  | cons a t ih =>
    cases hsp : splitOn c t with
    | nil => exact absurd hsp ih
    | cons h r =>
      rw [splitOn_cons_eq c a t h r hsp]
      split <;> simp

theorem headPart_splitOn (c : Char) :
    ∀ s : Str, headPart (splitOn c s) = firstField c s := by
  intro s
  induction s with
  | nil => rfl
  | cons a t ih =>
    cases hsp : splitOn c t with
    | nil => exact absurd hsp (splitOn_ne_nil c t)
    | cons h r =>
      rw [hsp] at ih
      rw [splitOn_cons_eq c a t h r hsp]
      by_cases hac : a = c
      · subst hac
        rw [if_pos rfl]
        simp [headPart, firstField]
      · rw [if_neg hac]
        simp only [headPart] at ih ⊢
        unfold firstField at ih ⊢
        rw [List.takeWhile_cons]
        simp [hac, ih]

theorem lastPart_cons2 (x y : Str) (z : List Str) :
    lastPart (x :: y :: z) = lastPart (y :: z) := rfl

theorem lastPart_splitOn_eq_nil (c : Char) :
    ∀ s : Str, lastPart (splitOn c s) = [] → s = [] ∨ s.getLast? = some c := by
  intro s
  induction s with
  | nil => intro _; exact Or.inl rfl
  | cons a t ih =>
    intro h
    cases hsp : splitOn c t with
    | nil => exact absurd hsp (splitOn_ne_nil c t)
    | cons hd r =>
      rw [splitOn_cons_eq c a t hd r hsp] at h
      by_cases hac : a = c
      · rw [if_pos hac] at h
        rw [lastPart_cons2] at h
        rcases ih (by rw [hsp]; exact h) with rfl | hlast
        · subst hac
          exact Or.inr (by simp)
        · right
          cases t with
          | nil => simp at hlast
          | cons b u => rw [List.getLast?_cons_cons]; exact hlast
      · rw [if_neg hac] at h
        cases r with
        | nil => simp [lastPart] at h
        | cons r1 r2 =>
          rw [lastPart_cons2] at h
          have h' : lastPart (splitOn c t) = [] := by
            rw [hsp, lastPart_cons2]; exact h
          rcases ih h' with rfl | hlast
          · simp [splitOn] at hsp
          · right
            cases t with
            | nil => simp at hlast
            | cons b u => rw [List.getLast?_cons_cons]; exact hlast

theorem matchNumBan_head (s : Str) (h : matchNumBan s = true) :
    ∃ d t, s = d :: t ∧ pyIsDigit d = true := by
  cases s with
  | nil => simp [matchNumBan] at h
  | cons d t =>
    refine ⟨d, t, rfl, ?_⟩
    by_contra hd
    simp only [Bool.not_eq_true] at hd
    unfold matchNumBan at h
    rw [List.takeWhile_cons] at h
    simp [hd] at h

theorem pyIsDigit_not_space (d : Char) (h : pyIsDigit d = true) :
    pyIsSpace d = false := by
  by_contra hs
  simp only [Bool.not_eq_false] at hs
  simp only [pyIsSpace, Bool.or_eq_true, decide_eq_true_eq] at hs
  rcases hs with ((((((rfl | rfl) | rfl) | rfl) | rfl) | rfl) | rfl) | rfl <;>
    exact absurd h (by decide)

theorem splitFirst_append (c : Char) :
    ∀ (s pre post : Str), splitFirst c s = some (pre, post) →
      s = pre ++ c :: post := by
  intro s
  induction s with
  | nil => intro pre post h; simp [splitFirst] at h
  | cons a t ih =>
    intro pre post h
    unfold splitFirst at h
    by_cases hac : a = c
    · rw [if_pos hac] at h
      simp only [Option.some_inj, Prod.mk.injEq] at h
      obtain ⟨rfl, rfl⟩ := h
      simp [hac]
    · rw [if_neg hac] at h
      cases hsf : splitFirst c t with
      | none => rw [hsf] at h; simp at h
      | some p =>
        rw [hsf] at h
        obtain ⟨pre', post'⟩ := p
        simp only [Option.map_some', Option.some_inj, Prod.mk.injEq] at h
        obtain ⟨rfl, rfl⟩ := h
        simp [ih pre' post' hsf]

/-! ### Listening invariant preservation -/

theorem flushListening_some (out : List Record) (a : PdfCsv.LAcc) (fd : Str) :
    PdfCsv.flushListening out (some a) fd =
      if (splitOn '\n' (pyStrip fd)).length > 1 then
        out ++ [{ type := "Listening".data, number := a.number,
                  dialogue := joinNL (splitOn '\n' (pyStrip fd)).dropLast,
                  question := lastPart (splitOn '\n' (pyStrip fd)),
                  sourcePage := a.page }]
      else
        out ++ [{ type := "Listening".data, number := a.number,
                  dialogue := [], question := pyStrip fd, sourcePage := a.page }] := rfl

theorem flushListening_ok (out : List Record) (cur : Option PdfCsv.LAcc) (fd : Str)
    (hout : ∀ r ∈ out, ListenOk r)
    (hacc : ∀ a, cur = some a → a.number ≠ [] ∧ ∃ c ∈ fd, pyIsSpace c = false) :
    ∀ r ∈ PdfCsv.flushListening out cur fd, ListenOk r := by
  cases cur with
  | none => simpa [PdfCsv.flushListening] using hout
  | some a =>
    obtain ⟨hnum, c, hc, hcp⟩ := hacc a rfl
    have hstrip : pyStrip fd ≠ [] := pyStrip_ne_nil fd c hc hcp
    intro r hr
    rw [flushListening_some] at hr
    by_cases hlen : (splitOn '\n' (pyStrip fd)).length > 1
    · rw [if_pos hlen] at hr
      rcases List.mem_append.mp hr with h | h
      · exact hout r h
      · simp only [List.mem_singleton] at h
        subst h
        refine ⟨rfl, hnum, ?_⟩
        intro hlp
        rcases lastPart_splitOn_eq_nil '\n' (pyStrip fd) hlp with h0 | h0
        · exact hstrip h0
        · have := pyStrip_getLast_not_space fd '\n' h0
          simp [pyIsSpace] at this
    · rw [if_neg hlen] at hr
      rcases List.mem_append.mp hr with h | h
      · exact hout r h
      · simp only [List.mem_singleton] at h
        subst h
        exact ⟨rfl, hnum, hstrip⟩

theorem stepBlock_ok (wm : List Str) (pg : Nat) (s : PdfCsv.LSt) (b : Str)
    (hs : LOk s) : LOk (PdfCsv.stepBlock wm pg s b) := by
  obtain ⟨hout, hacc⟩ := hs
  unfold PdfCsv.stepBlock
  by_cases hwm : (wm.any fun w => strContains (pyStrip b) w) = true
  · rw [if_pos hwm]; exact ⟨hout, hacc⟩
  · rw [if_neg hwm]
    by_cases hban : matchNumBan (pyStrip b) = true
    · rw [if_pos hban]
      obtain ⟨d, t, hbt, hd⟩ := matchNumBan_head _ hban
      refine ⟨flushListening_ok s.out s.acc s.fd hout hacc, ?_⟩
      intro a ha
      simp only [Option.some_inj] at ha
      subst ha
      constructor
      · -- the number is the non-empty first line of the stripped block
        rw [headPart_splitOn]
        unfold firstField
        rw [hbt, List.takeWhile_cons]
        have hdn : d ≠ '\n' := by
          intro he
          rw [he] at hd
          simp [pyIsDigit] at hd
        simp [hdn]
      · -- the seeded text contains a non-whitespace character
        cases hsf : splitFirst '\n' (pyStrip b) with
        | none =>
          refine ⟨d, ?_, pyIsDigit_not_space d hd⟩
          simp only [splitRem, hsf]
          rw [hbt]
          simp
        | some p =>
          obtain ⟨pre, post⟩ := p
          have heq := splitFirst_append '\n' (pyStrip b) pre post hsf
          cases hpost : post with
          | nil =>
            exfalso
            have hgl : (pyStrip b).getLast? = some '\n' := by
              rw [heq, hpost]
              exact List.getLast?_concat _
            have := pyStrip_getLast_not_space b '\n' hgl
            simp [pyIsSpace] at this
          | cons p1 p2 =>
            have hgl : (pyStrip b).getLast? = post.getLast? := by
              rw [heq, show pre ++ '\n' :: post = (pre ++ ['\n']) ++ post by simp]
              exact List.getLast?_append_of_ne_nil _ (by rw [hpost]; simp)
            cases hgl2 : post.getLast? with
            | none =>
              rw [List.getLast?_eq_none_iff] at hgl2
              rw [hpost] at hgl2
              simp at hgl2
            | some e =>
              refine ⟨e, ?_, ?_⟩
              · simp only [splitRem, hsf]
                exact List.mem_append_left _ (List.mem_of_mem_getLast? hgl2)
              · exact pyStrip_getLast_not_space b e (by rw [hgl, hgl2])
    · rw [if_neg hban]
      cases hac : s.acc with
      | none => exact ⟨hout, hacc⟩
      | some a0 =>
        refine ⟨hout, ?_⟩
        intro a ha
        obtain ⟨hn, c, hc, hcp⟩ := hacc a0 hac
        have haa : a = a0 := by
          have ha' : some a0 = some a := ha
          exact (Option.some_inj.mp ha').symm
        subst haa
        exact ⟨hn, c, List.mem_append_left _ (List.mem_append_left _ hc), hcp⟩

theorem foldl_stepBlock_ok (wm : List Str) (pg : Nat) :
    ∀ (bs : List Str) (s : PdfCsv.LSt),
      LOk s → LOk (bs.foldl (PdfCsv.stepBlock wm pg) s) := by
  intro bs
  induction bs with
  | nil => intro s hs; exact hs
  | cons b rest ih =>
    intro s hs
    rw [List.foldl_cons]
    exact ih _ (stepBlock_ok wm pg s b hs)

theorem scanListenPages_ok (wm : List Str) :
    ∀ (pages : List (List Str)) (pg : Nat) (s : PdfCsv.LSt),
      LOk s → LOk (PdfCsv.scanListenPages wm pg s pages) := by
  intro pages
  induction pages with
  | nil => intro pg s hs; exact hs
  | cons p rest ih =>
    intro pg s hs
    unfold PdfCsv.scanListenPages
    exact ih (pg + 1) _ (foldl_stepBlock_ok wm pg p s hs)

theorem listen_all_ok (wm : List Str) (pages : List (List Str)) :
    ∀ r ∈ PdfCsv.extract_listening_questions wm pages, ListenOk r := by
  have h := scanListenPages_ok wm pages 1 ⟨none, [], []⟩ ⟨by simp, by simp⟩
  exact flushListening_ok _ _ _ h.1 h.2

theorem gv_all_ok (wm : List Str) (pages : List PageT) :
    ∀ r ∈ PdfCsv.extract_grammar_vocab_questions wm pages, GVOk r := by
  unfold PdfCsv.extract_grammar_vocab_questions
  cases pages with
  | nil => simp
  | cons p rest =>
    have h := scanPagesAux_ok wm (p :: rest) 1 ⟨.vocab, 0, none, []⟩ [] (by simp)
    cases hs : PdfCsv.scanPagesAux wm 1 ⟨.vocab, 0, none, []⟩ [] (p :: rest) with
    | error out => rw [hs] at h; exact h
    | ok pr =>
      rw [hs] at h
      obtain ⟨st, uls⟩ := pr
      exact process_and_save_ok _ _ _ h

/-! ## Claim C5: non-emptiness of emitted record fields -/

/-- C5 (amended): every record emitted by any extraction path has a
non-empty type field, and every listening record also has non-empty number
and question fields; in the grammar/vocab paths, number and question can be
empty on degenerate lines (a grammar line consisting only of its ordinal, a
mondai-4/5 line with no ordinal left of its delimiter), so only
non-emptiness of the type is guaranteed there. -/
theorem c5_emitted_fields_nonempty :
    (∀ (wm : List Str) (pages : List PageT) (r : Record),
      r ∈ PdfCsv.extract_grammar_vocab_questions wm pages → r.type ≠ []) ∧
    (∀ (wm : List Str) (pages : List (List Str)) (r : Record),
      r ∈ PdfCsv.extract_listening_questions wm pages →
        r.type ≠ [] ∧ r.number ≠ [] ∧ r.question ≠ []) := by
  constructor
  · intro wm pages r hr
    rcases gv_all_ok wm pages r hr with h | h | h | h | h
    · rw [h]; decide
    · rw [h]; decide
    · rw [h]; decide
    · rw [h]; decide
    · rw [h.1]; decide
  · intro wm pages r hr
    obtain ⟨ht, hn, hq⟩ := listen_all_ok wm pages r hr
    exact ⟨by rw [ht]; decide, hn, hq⟩

theorem c5_emitted_fields_nonempty_witness :
    ({ type := "Listening".data, number := "1番".data, dialogue := [],
       question := "1番".data, sourcePage := 1 } : Record).type ≠ [] ∧
    ({ type := "Listening".data, number := "1番".data, dialogue := [],
       question := "1番".data, sourcePage := 1 } : Record).number ≠ [] ∧
    ({ type := "Listening".data, number := "1番".data, dialogue := [],
       question := "1番".data, sourcePage := 1 } : Record).question ≠ [] :=
  c5_emitted_fields_nonempty.2 [] [["1番".data]]
    { type := "Listening".data, number := "1番".data, dialogue := [],
      question := "1番".data, sourcePage := 1 } (by decide)

/-- C5 fails as stated: a mondai-5 line `⇒x` yields a Sentence-Construction
record with empty number *and* empty question, and a grammar line `1.`
(nothing after its ordinal) yields a Grammar/Reading record with empty
question. -/
theorem c5_counterexample :
    (PdfCsv.extract_grammar_vocab_questions [] [c5page]).map
        (fun r => (r.type, r.number, r.question))
      = [("Sentence Construction".data, [], []),
         ("Grammar/Reading".data, "1".data, [])] := by
  decide

/-! ## Claim C10: Sentence-Construction records -/

/-- C10: every emitted Sentence-Construction record has `number = question`,
and the mondai-5 branch emits exactly the record whose number and question
are both the stripped text left of the first `⇒` (ordinal included) and
whose answer is the stripped text right of it. -/
theorem c10_sentence_construction :
    (∀ (wm : List Str) (pages : List PageT) (r : Record),
      r ∈ PdfCsv.extract_grammar_vocab_questions wm pages →
      r.type = "Sentence Construction".data → r.number = r.question) ∧
    (∀ (wm : List Str) (uls : List RectT) (pg : Nat) (st : PdfCsv.ScanSt)
        (ln : LineT) (l rr : Str),
      (wm.any fun w => strContains (lineTextOf ln) w) = false →
      strContains (lineTextOf ln) "もじ・ごい".data = false →
      strContains (lineTextOf ln) "ぶんぽう・どっかい".data = false →
      matchMondai (lineTextOf ln) = none →
      st.sect = PdfCsv.Sect.vocab →
      st.mondai = 5 →
      lineTextOf ln ≠ [] →
      strContains (lineTextOf ln) ['⇒'] = true →
      splitFirst '⇒' (lineTextOf ln) = some (l, rr) →
      PdfCsv.stepLine wm uls pg st ln = .ok { st with out := st.out ++
        [{ type := "Sentence Construction".data, number := pyStrip l,
           question := pyStrip l, answer := pyStrip rr, sourcePage := pg }] }) := by
  constructor
  · intro wm pages r hr htype
    rcases gv_all_ok wm pages r hr with h | h | h | h | h
    · exact absurd (h.symm.trans htype) (by decide)
    · exact absurd (h.symm.trans htype) (by decide)
    · exact absurd (h.symm.trans htype) (by decide)
    · exact absurd (h.symm.trans htype) (by decide)
    · exact h.2
  · intro wm uls pg st ln l rr hw h1 h2 hmd hsect hmondai hne hcont hsplit
    unfold PdfCsv.stepLine
    simp [hw, h1, h2, hmd, hsect, hmondai, hne, hcont, hsplit]

theorem c10_sentence_construction_witness :
    PdfCsv.stepLine [] [] 1 c10st (mkLine "1.ねこ⇒ねこだ")
      = .ok { c10st with out := c10st.out ++
          [{ type := "Sentence Construction".data, number := pyStrip "1.ねこ".data,
             question := pyStrip "1.ねこ".data, answer := pyStrip "ねこだ".data,
             sourcePage := 1 }] } ∧
    ({ type := "Sentence Construction".data, number := "1.ねこ".data,
       question := "1.ねこ".data, answer := "ねこだ".data,
       sourcePage := 1 } : Record).number
      = ({ type := "Sentence Construction".data, number := "1.ねこ".data,
           question := "1.ねこ".data, answer := "ねこだ".data,
           sourcePage := 1 } : Record).question :=
  ⟨c10_sentence_construction.2 [] [] 1 c10st (mkLine "1.ねこ⇒ねこだ")
      "1.ねこ".data "ねこだ".data (by decide) (by decide) (by decide) (by decide)
      (by decide) (by decide) (by decide) (by decide) (by decide),
   c10_sentence_construction.1 [] [⟨[], [[mkLine "問題5", mkLine "1.ねこ⇒ねこだ"]]⟩]
      { type := "Sentence Construction".data, number := "1.ねこ".data,
        question := "1.ねこ".data, answer := "ねこだ".data, sourcePage := 1 }
      (by decide) (by decide)⟩

end JLPT
